import Mathlib

/-!
Verification of the thirtyfour WebDriver client's capability-negotiation and
transport-classification code.

The development shallowly embeds the following source items:
  * src/common/capabilities/desiredcapabilities.rs:
    make_w3c_caps, merge, Capabilities::add, Capabilities::add_subkey,
    Capabilities::update, the Proxy and ScrollBehaviour enums and their
    serde-derived serialization.
  * src/http/surf_async.rs: the response classification in
    SurfDriverAsync::execute.

JSON values (serde_json::Value) are modelled by the inductive type Json
below; objects are association lists with the lookup/insert semantics of
serde_json's map (later insertion overwrites the value stored under an
existing key).  Numbers are modelled as integers, which covers every number
appearing in the claims.
-/

namespace TF

/-- Model of serde_json::Value. -/
inductive Json where
  | null : Json
  | bool (b : Bool) : Json
  | num (n : Int) : Json
  | str (s : String) : Json
  | arr (xs : List Json) : Json
  | obj (fields : List (String × Json)) : Json

/-- Model of serde_json::Value::is_null. -/
def Json.isNull : Json → Bool
  | Json.null => true
  | _ => false

/-- Model of serde_json::Value::is_object. -/
def Json.isObj : Json → Bool
  | Json.obj _ => true
  | _ => false

/-- Lookup in a JSON object's field list (serde_json map lookup). -/
def objLookup : List (String × Json) → String → Option Json
  | [], _ => none
  | (k0, v0) :: rest, k => if k0 = k then some v0 else objLookup rest k

/-- Insert into a JSON object's field list (serde_json map insert): replaces
the value stored under an existing key, otherwise adds the binding. -/
def objInsert : List (String × Json) → String → Json → List (String × Json)
  | [], k, v => [(k, v)]
  | (k0, v0) :: rest, k, v =>
    if k0 = k then (k0, v) :: rest else (k0, v0) :: objInsert rest k v

/-- Field access on a JSON value: some value for a present object key. -/
def Json.getField : Json → String → Option Json
  | Json.obj fs, k => objLookup fs k
  | _, _ => none

@[simp]
theorem objLookup_nil (k : String) : objLookup [] k = none := rfl

@[simp]
theorem objLookup_cons (k0 : String) (v0 : Json) (rest : List (String × Json)) (k : String) :
    objLookup ((k0, v0) :: rest) k = if k0 = k then some v0 else objLookup rest k := rfl

theorem objLookup_objInsert (m : List (String × Json)) (k : String) (v : Json) (t : String) :
    objLookup (objInsert m k v) t = if k = t then some v else objLookup m t := by
  induction m with
  | nil => by_cases h : k = t <;> simp [objInsert, h]
  | cons kv rest ih =>
    obtain ⟨k0, v0⟩ := kv
    by_cases h0 : k0 = k
    · subst h0
      by_cases ht : k0 = t <;> simp [objInsert, ht]
    · by_cases ht : k0 = t
      · subst ht
        have : ¬ k = k0 := fun h => h0 h.symm
        simp [objInsert, h0, this]
      · simp [objInsert, h0, ht, ih]

/-- If the binding is already there, insertion leaves the list unchanged. -/
theorem objInsert_self (m : List (String × Json)) (k : String) (v : Json)
    (h : objLookup m k = some v) : objInsert m k v = m := by
  induction m with
  | nil => simp [objLookup] at h
  | cons kv rest ih =>
    obtain ⟨k0, v0⟩ := kv
    by_cases h0 : k0 = k
    · subst h0
      simp [objLookup] at h
      simp [objInsert, h]
    · simp [objLookup, h0] at h
      simp [objInsert, h0, ih h]

/-! ### make_w3c_caps (desiredcapabilities.rs lines 12-53) -/

/-- Source constant W3C_CAPABILITY_NAMES. -/
def W3C_CAPABILITY_NAMES : List String :=
  ["acceptInsecureCerts", "browserName", "browserVersion", "platformName",
   "pageLoadStrategy", "proxy", "setWindowRect", "timeouts",
   "unhandledPromptBehavior", "strictFileInteractability"]

/-- Source constant OSS_W3C_CONVERSION: (legacy key, standard key) pairs. -/
def OSS_W3C_CONVERSION : List (String × String) :=
  [("acceptSslCerts", "acceptInsecureCerts"),
   ("version", "browserVersion"),
   ("platform", "platformName")]

/-- Model of the Rust expression k.contains(a colon character). -/
def containsColon (k : String) : Bool := k.data.contains ':'

/-- The condition of the pass-through branch of make_w3c_caps:
W3C_CAPABILITY_NAMES.contains(k) or k contains a colon. -/
def isPassKey (k : String) : Bool :=
  W3C_CAPABILITY_NAMES.contains k || containsColon k

/-- The inner conversion loop of make_w3c_caps: for each pair in
OSS_W3C_CONVERSION whose legacy key equals k, write the value under the
standard key. -/
def stepConv (k : String) (v : Json) (am : List (String × Json)) : List (String × Json) :=
  OSS_W3C_CONVERSION.foldl (fun am p => if p.1 = k then objInsert am p.2 v else am) am

/-- One iteration of the entry loop of make_w3c_caps: the conversion loop
runs only for non-null values; the pass-through insert runs for every value. -/
def stepEntry (am : List (String × Json)) (kv : String × Json) : List (String × Json) :=
  let am1 := if kv.2.isNull = false then stepConv kv.1 kv.2 am else am
  if isPassKey kv.1 then objInsert am1 kv.1 kv.2 else am1

/-- The alwaysMatch object built by make_w3c_caps from the input's fields. -/
def alwaysMatchFields (fields : List (String × Json)) : List (String × Json) :=
  fields.foldl stepEntry []

/-- Model of make_w3c_caps (desiredcapabilities.rs lines 31-53). -/
def make_w3c_caps (caps : Json) : Json :=
  let am : List (String × Json) :=
    match caps with
    | Json.obj fields => alwaysMatchFields fields
    | _ => []
  Json.obj [("firstMatch", Json.arr [Json.obj []]), ("alwaysMatch", Json.obj am)]

/-- The alwaysMatch entry of an envelope. -/
def alwaysMatchOf (j : Json) : Option Json := j.getField "alwaysMatch"

/-- The standard key the conversion table maps a legacy key to, if any. -/
def convTarget (k : String) : Option String :=
  if "acceptSslCerts" = k then some "acceptInsecureCerts"
  else if "version" = k then some "browserVersion"
  else if "platform" = k then some "platformName"
  else none

/-- The legacy key the conversion table maps onto a standard key, if any. -/
def convSource (t : String) : Option String :=
  if "acceptInsecureCerts" = t then some "acceptSslCerts"
  else if "browserVersion" = t then some "version"
  else if "platformName" = t then some "platform"
  else none

/-- The value (if any) a single input entry writes under target key t: the
pass-through write happens after the conversion writes, so it wins. -/
def entryWrite (kv : String × Json) (t : String) : Option Json :=
  if isPassKey kv.1 = true ∧ t = kv.1 then some kv.2
  else if kv.2.isNull = false ∧ convTarget kv.1 = some t then some kv.2
  else none

/-- The value of the last write to target key t over a list of input entries
processed left to right. -/
def lastWriteVal : List (String × Json) → String → Option Json
  | [], _ => none
  | kv :: rest, t =>
    match lastWriteVal rest t with
    | some v => some v
    | none => entryWrite kv t

@[simp]
theorem lastWriteVal_nil (t : String) : lastWriteVal [] t = none := rfl

@[simp]
theorem lastWriteVal_cons (kv : String × Json) (rest : List (String × Json)) (t : String) :
    lastWriteVal (kv :: rest) t =
      match lastWriteVal rest t with
      | some v => some v
      | none => entryWrite kv t := rfl

theorem objLookup_stepConv (k : String) (v : Json) (am : List (String × Json)) (t : String) :
    objLookup (stepConv k v am) t =
      if convTarget k = some t then some v else objLookup am t := by
  by_cases h1 : "acceptSslCerts" = k
  · subst h1
    simp [stepConv, OSS_W3C_CONVERSION, convTarget, objLookup_objInsert]
  · by_cases h2 : "version" = k
    · subst h2
      simp [stepConv, OSS_W3C_CONVERSION, convTarget, objLookup_objInsert]
    · by_cases h3 : "platform" = k
      · subst h3
        simp [stepConv, OSS_W3C_CONVERSION, convTarget, objLookup_objInsert]
      · simp [stepConv, OSS_W3C_CONVERSION, convTarget, h1, h2, h3]

theorem objLookup_stepEntry (am : List (String × Json)) (kv : String × Json) (t : String) :
    objLookup (stepEntry am kv) t =
      match entryWrite kv t with
      | some v => some v
      | none => objLookup am t := by
  obtain ⟨k, v⟩ := kv
  by_cases hpt : isPassKey k = true ∧ t = k
  · obtain ⟨hp, ht⟩ := hpt
    subst ht
    simp [stepEntry, entryWrite, hp, objLookup_objInsert]
  · have hew : entryWrite (k, v) t =
        if v.isNull = false ∧ convTarget k = some t then some v else none := by
      simp [entryWrite, hpt]
    rw [hew]
    cases hp : isPassKey k with
    | true =>
      have ht : ¬ t = k := fun h => hpt ⟨hp, h⟩
      have hkt : ¬ k = t := fun h => ht h.symm
      cases hn : v.isNull with
      | false =>
        by_cases hc : convTarget k = some t <;>
          simp [stepEntry, hp, hn, hc, objLookup_objInsert, objLookup_stepConv, hkt]
      | true =>
        simp [stepEntry, hp, hn, objLookup_objInsert, hkt]
    | false =>
      cases hn : v.isNull with
      | false =>
        by_cases hc : convTarget k = some t <;>
          simp [stepEntry, hp, hn, hc, objLookup_stepConv]
      | true =>
        simp [stepEntry, hp, hn]

theorem objLookup_foldl_stepEntry (fields : List (String × Json)) (am : List (String × Json))
    (t : String) :
    objLookup (fields.foldl stepEntry am) t =
      match lastWriteVal fields t with
      | some v => some v
      | none => objLookup am t := by
  induction fields generalizing am with
  | nil => simp
  | cons kv rest ih =>
    rw [List.foldl_cons, ih, lastWriteVal_cons]
    cases h : lastWriteVal rest t with
    | some w => simp
    | none => simp [objLookup_stepEntry]

/-! ### Key uniqueness and the no-collision side condition -/

/-- Keys of the field list are pairwise distinct (every serde_json object
satisfies this). -/
def nodupKeysB : List (String × Json) → Bool
  | [] => true
  | (k, _) :: rest => !((rest.map Prod.fst).contains k) && nodupKeysB rest

theorem nodupKeysB_cons (k : String) (v : Json) (rest : List (String × Json)) :
    nodupKeysB ((k, v) :: rest) = true ↔
      (rest.map Prod.fst).contains k = false ∧ nodupKeysB rest = true := by
  simp [nodupKeysB]

theorem objLookup_eq_none_of_not_contains (l : List (String × Json)) (k : String)
    (h : (l.map Prod.fst).contains k = false) : objLookup l k = none := by
  induction l with
  | nil => rfl
  | cons kv rest ih =>
    obtain ⟨k0, v0⟩ := kv
    simp only [List.map_cons, List.contains_cons, Bool.or_eq_false_iff] at h
    have hk0 : ¬ k0 = k := by
      intro he
      rw [he] at h
      simp at h
    simp [objLookup_cons, hk0, ih h.2]

/-- The input does not contain a standard key together with a non-null value
under the corresponding legacy key (otherwise the two make_w3c_caps branches
would write the same alwaysMatch key and the claim would demand two different
values for it at once). -/
def noConvCollision (fields : List (String × Json)) : Prop :=
  ∀ p ∈ OSS_W3C_CONVERSION,
    ((objLookup fields p.1).getD Json.null).isNull = false →
      (objLookup fields p.2).isNone = true

instance (fields : List (String × Json)) : Decidable (noConvCollision fields) := by
  unfold noConvCollision
  infer_instance

/-! ### Conversion table facts -/

theorem convSource_cases {t f : String} (h : convSource t = some f) :
    (f = "acceptSslCerts" ∧ t = "acceptInsecureCerts") ∨
    (f = "version" ∧ t = "browserVersion") ∨
    (f = "platform" ∧ t = "platformName") := by
  unfold convSource at h
  split_ifs at h with h1 h2 h3
  · injection h with h'
    exact Or.inl ⟨h'.symm, h1.symm⟩
  · injection h with h'
    exact Or.inr (Or.inl ⟨h'.symm, h2.symm⟩)
  · injection h with h'
    exact Or.inr (Or.inr ⟨h'.symm, h3.symm⟩)

theorem convTarget_cases {k t : String} (h : convTarget k = some t) :
    (k = "acceptSslCerts" ∧ t = "acceptInsecureCerts") ∨
    (k = "version" ∧ t = "browserVersion") ∨
    (k = "platform" ∧ t = "platformName") := by
  unfold convTarget at h
  split_ifs at h with h1 h2 h3
  · injection h with h'
    exact Or.inl ⟨h1.symm, h'.symm⟩
  · injection h with h'
    exact Or.inr (Or.inl ⟨h2.symm, h'.symm⟩)
  · injection h with h'
    exact Or.inr (Or.inr ⟨h3.symm, h'.symm⟩)

theorem convTarget_iff_convSource {k t : String} :
    convTarget k = some t ↔ convSource t = some k := by
  constructor
  · intro h
    rcases convTarget_cases h with ⟨hk, ht⟩ | ⟨hk, ht⟩ | ⟨hk, ht⟩ <;> subst hk <;> subst ht <;> rfl
  · intro h
    rcases convSource_cases h with ⟨hf, ht⟩ | ⟨hf, ht⟩ | ⟨hf, ht⟩ <;> subst hf <;> subst ht <;> rfl

theorem convSource_ne_self {t f : String} (h : convSource t = some f) : f ≠ t := by
  rcases convSource_cases h with ⟨hf, ht⟩ | ⟨hf, ht⟩ | ⟨hf, ht⟩ <;> subst hf <;> subst ht <;> decide

theorem convSource_pass {t f : String} (h : convSource t = some f) : isPassKey t = true := by
  rcases convSource_cases h with ⟨_, ht⟩ | ⟨_, ht⟩ | ⟨_, ht⟩ <;> subst ht <;> decide

theorem convSource_memTable {t f : String} (h : convSource t = some f) :
    (f, t) ∈ OSS_W3C_CONVERSION := by
  rcases convSource_cases h with ⟨hf, ht⟩ | ⟨hf, ht⟩ | ⟨hf, ht⟩ <;> subst hf <;> subst ht <;>
    simp [OSS_W3C_CONVERSION]

theorem noConvCollision_tail {k : String} {v : Json} {rest : List (String × Json)}
    (hnotin : (rest.map Prod.fst).contains k = false)
    (hcol : noConvCollision ((k, v) :: rest)) : noConvCollision rest := by
  intro p hp hnn
  by_cases hk1 : p.1 = k
  · rw [hk1, objLookup_eq_none_of_not_contains rest k hnotin] at hnn
    simp [Json.isNull] at hnn
  · have hk1' : ¬ k = p.1 := fun h => hk1 h.symm
    have hl1 : objLookup ((k, v) :: rest) p.1 = objLookup rest p.1 := by
      simp [objLookup_cons, hk1']
    have h2 := hcol p hp (by rw [hl1]; exact hnn)
    by_cases hk2 : p.2 = k
    · rw [hk2] at h2
      simp [objLookup_cons] at h2
    · have hk2' : ¬ k = p.2 := fun h => hk2 h.symm
      rw [show objLookup ((k, v) :: rest) p.2 = objLookup rest p.2 from by
        simp [objLookup_cons, hk2']] at h2
      exact h2

/-! ### The claim-side description of the alwaysMatch content -/

/-- Translated from the claim's wording, pass-through part: a key in the
standard allowlist or containing a colon keeps its value under the original
key. -/
def specPassPart (fields : List (String × Json)) (t : String) : Option Json :=
  if isPassKey t = true then objLookup fields t else none

/-- Translated from the claim's wording, conversion part: a non-null value
stored under a legacy key appears under the corresponding standard key. -/
def specConvPart (fields : List (String × Json)) (t : String) : Option Json :=
  match convSource t with
  | some f =>
    match objLookup fields f with
    | some v => if v.isNull = true then none else some v
    | none => none
  | none => none

/-- Translated from the claim's wording: the full expected content of
alwaysMatch, keyed by target key; every key not produced by either part is
absent. -/
def specAlwaysMatchLookup (fields : List (String × Json)) (t : String) : Option Json :=
  match specPassPart fields t with
  | some v => some v
  | none => specConvPart fields t

theorem lastWriteVal_eq_spec (fields : List (String × Json)) (hnd : nodupKeysB fields = true)
    (hcol : noConvCollision fields) (t : String) :
    lastWriteVal fields t = specAlwaysMatchLookup fields t := by
  revert hnd hcol
  induction fields with
  | nil =>
    intro _ _
    cases hc : convSource t <;>
      simp [specAlwaysMatchLookup, specPassPart, specConvPart, hc]
  | cons kv rest ih =>
    obtain ⟨k, v⟩ := kv
    intro hnd hcol
    obtain ⟨hk_notin, hnd_rest⟩ := (nodupKeysB_cons k v rest).mp hnd
    have hcol_rest := noConvCollision_tail hk_notin hcol
    have ih' := ih hnd_rest hcol_rest
    have hkrest : objLookup rest k = none := objLookup_eq_none_of_not_contains rest k hk_notin
    rw [lastWriteVal_cons, ih']
    by_cases htk : t = k
    · subst htk
      have hlc : objLookup ((t, v) :: rest) t = some v := by simp [objLookup_cons]
      cases hp : isPassKey t with
      | true =>
        have hpc : specAlwaysMatchLookup ((t, v) :: rest) t = some v := by
          simp [specAlwaysMatchLookup, specPassPart, hp, hlc]
        rw [hpc]
        have hsr : specAlwaysMatchLookup rest t = specConvPart rest t := by
          simp [specAlwaysMatchLookup, specPassPart, hp, hkrest]
        rw [hsr]
        cases hcs : convSource t with
        | none => simp [specConvPart, hcs, entryWrite, hp]
        | some f =>
          have hfk : f ≠ t := convSource_ne_self hcs
          cases hlf : objLookup rest f with
          | none => simp [specConvPart, hcs, hlf, entryWrite, hp]
          | some w =>
            cases hwn : w.isNull with
            | true => simp [specConvPart, hcs, hlf, hwn, entryWrite, hp]
            | false =>
              exfalso
              have hmem := convSource_memTable hcs
              have hkf : ¬ t = f := fun h => hfk h.symm
              have h1 : ((objLookup ((t, v) :: rest) f).getD Json.null).isNull = false := by
                simp [objLookup_cons, hkf, hlf, hwn]
              have h2 := hcol (f, t) hmem h1
              simp [objLookup_cons] at h2
      | false =>
        cases hcs : convSource t with
        | some f => exact absurd (convSource_pass hcs) (by simp [hp])
        | none =>
          have hct : ¬ convTarget t = some t := fun h => by
            have h' := convTarget_iff_convSource.mp h
            rw [hcs] at h'
            exact Option.noConfusion h'
          simp [specAlwaysMatchLookup, specPassPart, specConvPart, hp, hcs, entryWrite, hct,
            hkrest]
    · have hkt : ¬ k = t := fun h => htk h.symm
      have hlct : objLookup ((k, v) :: rest) t = objLookup rest t := by
        simp [objLookup_cons, hkt]
      have hppc : specPassPart ((k, v) :: rest) t = specPassPart rest t := by
        simp [specPassPart, hlct]
      by_cases hconv : convTarget k = some t
      · have hcsk : convSource t = some k := convTarget_iff_convSource.mp hconv
        cases hpt : specPassPart rest t with
        | some w => simp [specAlwaysMatchLookup, hppc, hpt]
        | none =>
          have h1 : specAlwaysMatchLookup rest t = none := by
            simp [specAlwaysMatchLookup, hpt, specConvPart, hcsk, hkrest]
          rw [h1]
          have hlck : objLookup ((k, v) :: rest) k = some v := by simp [objLookup_cons]
          cases hvn : v.isNull with
          | false =>
            simp [specAlwaysMatchLookup, hppc, hpt, specConvPart, hcsk, hlck, hvn, entryWrite,
              htk, hconv]
          | true =>
            simp [specAlwaysMatchLookup, hppc, hpt, specConvPart, hcsk, hlck, hvn, entryWrite,
              htk, hconv]
      · have hew : entryWrite (k, v) t = none := by
          simp [entryWrite, htk, hconv]
        have hcc : specConvPart ((k, v) :: rest) t = specConvPart rest t := by
          cases hcs : convSource t with
          | none => simp [specConvPart, hcs]
          | some f =>
            have hfk : ¬ k = f := fun h => hconv (convTarget_iff_convSource.mpr (h ▸ hcs))
            simp [specConvPart, hcs, objLookup_cons, hfk]
        have hspec_eq : specAlwaysMatchLookup ((k, v) :: rest) t =
            specAlwaysMatchLookup rest t := by
          simp [specAlwaysMatchLookup, hppc, hcc]
        rw [hspec_eq, hew]
        cases hrt : specAlwaysMatchLookup rest t <;> simp [hrt]

/-- Lookup of a key inside the alwaysMatch object of the envelope built by
make_w3c_caps. -/
def alwaysMatchLookup (caps : Json) (t : String) : Option Json :=
  match alwaysMatchOf (make_w3c_caps caps) with
  | some am => am.getField t
  | none => none

theorem alwaysMatchOf_make_w3c_caps (fields : List (String × Json)) :
    alwaysMatchOf (make_w3c_caps (Json.obj fields)) =
      some (Json.obj (alwaysMatchFields fields)) := by
  simp [alwaysMatchOf, make_w3c_caps, Json.getField, objLookup]

theorem alwaysMatchLookup_eq_lastWriteVal (fields : List (String × Json)) (t : String) :
    alwaysMatchLookup (Json.obj fields) t = lastWriteVal fields t := by
  unfold alwaysMatchLookup
  rw [alwaysMatchOf_make_w3c_caps]
  show objLookup (alwaysMatchFields fields) t = _
  unfold alwaysMatchFields
  rw [objLookup_foldl_stepEntry]
  cases h : lastWriteVal fields t <;> simp

theorem entryWrite_none_of_notPass {t : String} (h : isPassKey t = false)
    (kv : String × Json) : entryWrite kv t = none := by
  by_cases h1 : isPassKey kv.1 = true ∧ t = kv.1
  · obtain ⟨hp, ht⟩ := h1
    rw [ht] at h
    rw [hp] at h
    exact Bool.noConfusion h
  · have h2 : ¬ (kv.2.isNull = false ∧ convTarget kv.1 = some t) := by
      rintro ⟨-, hc⟩
      have hpass := convSource_pass (convTarget_iff_convSource.mp hc)
      rw [h] at hpass
      exact Bool.noConfusion hpass
    simp [entryWrite, h1, h2]

theorem lastWriteVal_none_of_notPass {t : String} (h : isPassKey t = false)
    (fields : List (String × Json)) : lastWriteVal fields t = none := by
  induction fields with
  | nil => rfl
  | cons kv rest ih => simp [lastWriteVal_cons, ih, entryWrite_none_of_notPass h]

theorem lastWriteVal_ne_none_of_pass {t : String} {fields : List (String × Json)} {w : Json}
    (hp : isPassKey t = true) (hmem : objLookup fields t = some w) :
    lastWriteVal fields t ≠ none := by
  induction fields with
  | nil => simp [objLookup] at hmem
  | cons kv rest ih =>
    obtain ⟨k0, v0⟩ := kv
    rw [lastWriteVal_cons]
    by_cases hk : k0 = t
    · have hp0 : isPassKey k0 = true := by rw [hk]; exact hp
      have hew : entryWrite (k0, v0) t = some v0 := by simp [entryWrite, hp0, hk.symm]
      rw [hew]
      cases lastWriteVal rest t <;> simp
    · rw [objLookup_cons, if_neg hk] at hmem
      have := ih hmem
      cases h : lastWriteVal rest t with
      | some w' => simp
      | none => exact absurd h this

/-! ### Claims C1, C2, C9 -/

/-- Claim C1, counterexample: for the input holding both the non-null legacy
key version (value "99") and its standard counterpart browserVersion (value
"100"), the claim demands that alwaysMatch store the conversion value "99"
under browserVersion and, independently, the pass-through value "100" under
browserVersion; the code stores only "100" (the later entry in iteration
order wins), so the conversion part of the claim fails here. -/
theorem make_w3c_caps_collision_counterexample :
    alwaysMatchLookup
        (Json.obj [("version", Json.str "99"), ("browserVersion", Json.str "100")])
        "browserVersion" = some (Json.str "100") ∧
    Json.str "100" ≠ Json.str "99" :=
  ⟨rfl, by simp⟩

/-- Claim C1 (amended): for every mapping input with pairwise-distinct keys
that does not pair a non-null legacy key with its standard counterpart, the
alwaysMatch object contains exactly: for each non-null value under a legacy
key of the conversion table, that value under the corresponding standard key;
independently, for each key in the standard allowlist or containing a colon,
the value under the original key unchanged; every other key is absent.  When
both branches target the same key, the later input entry wins instead. -/
theorem make_w3c_caps_alwaysMatch_spec (fields : List (String × Json))
    (hnd : nodupKeysB fields = true) (hcol : noConvCollision fields) (t : String) :
    alwaysMatchLookup (Json.obj fields) t = specAlwaysMatchLookup fields t := by
  rw [alwaysMatchLookup_eq_lastWriteVal]
  exact lastWriteVal_eq_spec fields hnd hcol t

/-- Witness for the amended claim C1 at the spec's own example input. -/
theorem make_w3c_caps_alwaysMatch_spec_witness :
    nodupKeysB [("version", Json.str "99"), ("platformName", Json.str "LINUX")] = true ∧
    noConvCollision [("version", Json.str "99"), ("platformName", Json.str "LINUX")] ∧
    alwaysMatchLookup
        (Json.obj [("version", Json.str "99"), ("platformName", Json.str "LINUX")])
        "browserVersion" = some (Json.str "99") := by
  refine ⟨by decide, by decide, ?_⟩
  exact (make_w3c_caps_alwaysMatch_spec
    [("version", Json.str "99"), ("platformName", Json.str "LINUX")]
    (by decide) (by decide) "browserVersion").trans rfl

/-- Claim C2, counterexample: for the input mapping browserName to null, the
alwaysMatch object does contain the key browserName (with value null): the
null check of make_w3c_caps guards only the conversion loop, not the
pass-through branch, so a null-valued allowlisted key is copied through. -/
theorem null_key_counterexample :
    alwaysMatchLookup (Json.obj [("browserName", Json.null)]) "browserName" =
        some Json.null ∧
    some Json.null ≠ (none : Option Json) :=
  ⟨rfl, by simp⟩

/-- Claim C2 (amended): a key whose value is null is dropped from alwaysMatch
exactly when it is outside the standard allowlist and contains no colon; a
null-valued allowlisted or namespaced key is still present in alwaysMatch. -/
theorem null_key_handling (fields : List (String × Json)) (k : String)
    (hnull : objLookup fields k = some Json.null) :
    (isPassKey k = false → alwaysMatchLookup (Json.obj fields) k = none) ∧
    (isPassKey k = true → alwaysMatchLookup (Json.obj fields) k ≠ none) := by
  constructor
  · intro hp
    rw [alwaysMatchLookup_eq_lastWriteVal]
    exact lastWriteVal_none_of_notPass hp fields
  · intro hp
    rw [alwaysMatchLookup_eq_lastWriteVal]
    exact lastWriteVal_ne_none_of_pass hp hnull

/-- Witness for the amended claim C2 at the spec's own example input. -/
theorem null_key_handling_witness :
    objLookup [("browserName", Json.null)] "browserName" = some Json.null ∧
    isPassKey "browserName" = true ∧
    alwaysMatchLookup (Json.obj [("browserName", Json.null)]) "browserName" ≠ none := by
  refine ⟨rfl, by decide, ?_⟩
  exact (null_key_handling [("browserName", Json.null)] "browserName" rfl).2 (by decide)

/-- Claim C9: for every input value, the envelope returned by make_w3c_caps
has a firstMatch field equal to a one-element sequence containing an empty
mapping. -/
theorem make_w3c_caps_firstMatch (caps : Json) :
    (make_w3c_caps caps).getField "firstMatch" = some (Json.arr [Json.obj []]) := by
  cases caps <;> rfl

/-! ### merge and Capabilities::update (desiredcapabilities.rs lines 58-68, 165-168) -/

mutual

/-- Model of merge: if both values are objects, fold the incoming object's
entries into the existing one; otherwise the incoming value replaces the
existing one. -/
def merge : Json → Json → Json
  | Json.obj a, Json.obj b => Json.obj (mergeInto a b)
  | _, b => b
termination_by _a b => sizeOf b

/-- The entry loop of merge: for each (k, v) of the incoming object, merge v
into the slot a.entry(k).or_insert(Null). -/
def mergeInto : List (String × Json) → List (String × Json) → List (String × Json)
  | a, [] => a
  | a, (k, v) :: rest =>
    mergeInto (objInsert a k (merge ((objLookup a k).getD Json.null) v)) rest
termination_by _a lb => sizeOf lb

end

/-- Model of Capabilities::update: asserts the incoming value is an object
(a contract violation otherwise), then merges it into the capabilities. -/
def update (caps : Json) (value : Json) : Json := merge caps value

@[simp]
theorem mergeInto_nil (a : List (String × Json)) : mergeInto a [] = a := by
  rw [mergeInto]

theorem mergeInto_cons (a : List (String × Json)) (k : String) (v : Json)
    (rest : List (String × Json)) :
    mergeInto a ((k, v) :: rest) =
      mergeInto (objInsert a k (merge ((objLookup a k).getD Json.null) v)) rest := by
  rw [mergeInto]

@[simp]
theorem merge_obj_obj (a b : List (String × Json)) :
    merge (Json.obj a) (Json.obj b) = Json.obj (mergeInto a b) := by
  rw [merge]

theorem merge_eq_right {a b : Json} (h : b.isObj = false) : merge a b = b := by
  rw [merge.eq_def]
  split
  · simp [Json.isObj] at h
  · rfl

theorem merge_null_left (v : Json) : merge Json.null v = v := by
  rw [merge.eq_def]

theorem merge_eq_left_not_obj (a : Json) (h : a.isObj = false) (b : Json) : merge a b = b := by
  rw [merge.eq_def]
  split
  · simp_all [Json.isObj]
  · rfl

theorem objLookup_mergeInto_notmem (lb : List (String × Json)) (k : String)
    (h : (lb.map Prod.fst).contains k = false) (a : List (String × Json)) :
    objLookup (mergeInto a lb) k = objLookup a k := by
  induction lb generalizing a with
  | nil => simp
  | cons kv rest ih =>
    obtain ⟨k0, v0⟩ := kv
    simp only [List.map_cons, List.contains_cons, Bool.or_eq_false_iff] at h
    have hk0 : ¬ k0 = k := by
      intro he
      rw [he] at h
      simp at h
    rw [mergeInto_cons, ih h.2, objLookup_objInsert, if_neg hk0]

/-- Claim C6: update deep-merges the incoming mapping into the capability
document: for each key of the incoming document, if both sides hold nested
mappings they are merged recursively, otherwise the incoming value replaces
(or creates) the entry; keys absent from the incoming document are kept. -/
theorem update_merge_rule (a b : List (String × Json)) (k : String)
    (hnd : nodupKeysB b = true) :
    (update (Json.obj a) (Json.obj b)).getField k =
      match objLookup b k with
      | none => objLookup a k
      | some vb =>
        match objLookup a k with
        | none => some vb
        | some va =>
          match va, vb with
          | Json.obj fa, Json.obj fb => some (Json.obj (mergeInto fa fb))
          | _, _ => some vb := by
  show (merge (Json.obj a) (Json.obj b)).getField k = _
  rw [merge_obj_obj]
  show objLookup (mergeInto a b) k = _
  induction b generalizing a with
  | nil => simp
  | cons kv rest ih =>
    obtain ⟨k0, v0⟩ := kv
    obtain ⟨hk_notin, hnd_rest⟩ := (nodupKeysB_cons k0 v0 rest).mp hnd
    rw [mergeInto_cons]
    by_cases hk : k0 = k
    · subst hk
      rw [objLookup_mergeInto_notmem rest k0 hk_notin, objLookup_objInsert, if_pos rfl]
      rw [objLookup_cons, if_pos rfl]
      cases hla : objLookup a k0 with
      | none => simp [merge_null_left]
      | some va =>
        cases va <;> cases v0 <;>
          simp [merge_obj_obj, merge_eq_right, merge_eq_left_not_obj, Json.isObj]
    · rw [ih _ hnd_rest, objLookup_cons, if_neg hk, objLookup_objInsert, if_neg hk]
  -- the nodup hypothesis of ih applies to rest

/-- Witness for claim C6 at the spec's timeouts example: the nested maps are
combined rather than replaced. -/
theorem update_merge_rule_witness :
    nodupKeysB [("timeouts", Json.obj [("implicit", Json.num 0)])] = true ∧
    (update (Json.obj [("timeouts", Json.obj [("pageLoad", Json.num 300000)])])
        (Json.obj [("timeouts", Json.obj [("implicit", Json.num 0)])])).getField
        "timeouts" =
      some (Json.obj [("pageLoad", Json.num 300000), ("implicit", Json.num 0)]) := by
  refine ⟨by decide, ?_⟩
  have h := update_merge_rule
    [("timeouts", Json.obj [("pageLoad", Json.num 300000)])]
    [("timeouts", Json.obj [("implicit", Json.num 0)])] "timeouts" (by decide)
  simpa [objLookup, mergeInto, merge, objInsert] using h

/-! ### Well-formed JSON values and idempotence of update -/

mutual

/-- Every object inside the value (outside arrays, which merge never opens)
has pairwise-distinct keys; serde_json maps guarantee this. -/
def jwf : Json → Bool
  | Json.obj fs => nodupKeysB fs && jwfFields fs
  | _ => true
termination_by j => sizeOf j

/-- jwf for every value of a field list. -/
def jwfFields : List (String × Json) → Bool
  | [] => true
  | (_, v) :: rest => jwf v && jwfFields rest
termination_by fs => sizeOf fs

end

theorem jwf_obj (fs : List (String × Json)) :
    jwf (Json.obj fs) = (nodupKeysB fs && jwfFields fs) := by
  rw [jwf]

theorem jwf_of_mem {fs : List (String × Json)} (hw : jwfFields fs = true)
    {kv : String × Json} (hm : kv ∈ fs) : jwf kv.2 = true := by
  induction fs with
  | nil => simp at hm
  | cons kv0 rest ih =>
    obtain ⟨k0, v0⟩ := kv0
    rw [jwfFields] at hw
    rw [Bool.and_eq_true] at hw
    rcases List.mem_cons.mp hm with h | h
    · rw [h]
      exact hw.1
    · exact ih hw.2 h

theorem objLookup_of_mem_nodup {fs : List (String × Json)} (hnd : nodupKeysB fs = true)
    {k : String} {v : Json} (hm : (k, v) ∈ fs) : objLookup fs k = some v := by
  induction fs with
  | nil => simp at hm
  | cons kv0 rest ih =>
    obtain ⟨k0, v0⟩ := kv0
    obtain ⟨hk_notin, hnd_rest⟩ := (nodupKeysB_cons k0 v0 rest).mp hnd
    rcases List.mem_cons.mp hm with h | h
    · obtain ⟨h1, h2⟩ := Prod.mk.injEq .. ▸ h
      rw [objLookup_cons, h1, if_pos rfl, h2]
    · have hk0 : ¬ k0 = k := by
        intro he
        have hnone := objLookup_eq_none_of_not_contains rest k (he ▸ hk_notin)
        rw [ih hnd_rest h] at hnone
        exact Option.noConfusion hnone
      rw [objLookup_cons, if_neg hk0]
      exact ih hnd_rest h

theorem mergeInto_self (lb : List (String × Json)) (a : List (String × Json))
    (hm : ∀ kv ∈ lb, merge kv.2 kv.2 = kv.2)
    (hl : ∀ kv ∈ lb, objLookup a kv.1 = some kv.2) :
    mergeInto a lb = a := by
  induction lb with
  | nil => simp
  | cons kv rest ih =>
    obtain ⟨k, v⟩ := kv
    have hlk : objLookup a k = some v := hl (k, v) (List.mem_cons_self _ _)
    have hmv : merge v v = v := hm (k, v) (List.mem_cons_self _ _)
    rw [mergeInto_cons]
    have h1 : objInsert a k (merge ((objLookup a k).getD Json.null) v) = a := by
      rw [hlk, Option.getD_some, hmv]
      exact objInsert_self a k v hlk
    rw [h1]
    exact ih (fun kv h => hm kv (List.mem_cons_of_mem _ h))
      (fun kv h => hl kv (List.mem_cons_of_mem _ h))

theorem mergeInto_idem (lb : List (String × Json)) (hnd : nodupKeysB lb = true)
    (hidem : ∀ kv ∈ lb, ∀ x, merge (merge x kv.2) kv.2 = merge x kv.2) :
    ∀ a, mergeInto (mergeInto a lb) lb = mergeInto a lb := by
  induction lb with
  | nil => intro a; simp
  | cons kv rest ih =>
    obtain ⟨k, v⟩ := kv
    obtain ⟨hk_notin, hnd_rest⟩ := (nodupKeysB_cons k v rest).mp hnd
    intro a
    rw [mergeInto_cons a k v rest]
    generalize hg : objInsert a k (merge ((objLookup a k).getD Json.null) v) = a1
    rw [mergeInto_cons]
    have hlk : objLookup (mergeInto a1 rest) k =
        some (merge ((objLookup a k).getD Json.null) v) := by
      rw [objLookup_mergeInto_notmem rest k hk_notin, ← hg, objLookup_objInsert, if_pos rfl]
    rw [hlk, Option.getD_some, hidem (k, v) (List.mem_cons_self _ _) _]
    rw [objInsert_self _ _ _ hlk]
    exact ih hnd_rest (fun kv h => hidem kv (List.mem_cons_of_mem _ h)) a1

theorem merge_idem_of_not_obj {y : Json} (h : y.isObj = false) :
    (∀ x, merge (merge x y) y = merge x y) ∧ merge y y = y :=
  ⟨fun x => by rw [merge_eq_right h, merge_eq_right h], merge_eq_right h⟩

theorem merge_idem_n (n : Nat) : ∀ (y : Json), sizeOf y ≤ n → jwf y = true →
    (∀ x, merge (merge x y) y = merge x y) ∧ merge y y = y := by
  induction n with
  | zero =>
    intro y hy _
    exact absurd hy (by cases y <;> simp)
  | succ n ih =>
    intro y hy hwf
    cases y with
    | obj fs =>
      rw [jwf_obj, Bool.and_eq_true] at hwf
      obtain ⟨hnd, hfw⟩ := hwf
      have hmem_size : ∀ kv ∈ fs, sizeOf kv.2 ≤ n := by
        intro kv hmm
        have h1 := List.sizeOf_lt_of_mem hmm
        have h2 : sizeOf kv.2 < sizeOf kv := by
          obtain ⟨k0, v0⟩ := kv
          simp only [Prod.mk.sizeOf_spec]
          omega
        have h3 : sizeOf (Json.obj fs) = 1 + sizeOf fs := by simp
        omega
      have hmem_idem : ∀ kv ∈ fs,
          (∀ x, merge (merge x kv.2) kv.2 = merge x kv.2) ∧ merge kv.2 kv.2 = kv.2 :=
        fun kv hmm => ih kv.2 (hmem_size kv hmm) (jwf_of_mem hfw hmm)
      have hself : merge (Json.obj fs) (Json.obj fs) = Json.obj fs := by
        rw [merge_obj_obj]
        rw [mergeInto_self fs fs (fun kv hmm => (hmem_idem kv hmm).2)
          (fun kv hmm => objLookup_of_mem_nodup hnd hmm)]
      refine ⟨?_, hself⟩
      intro x
      cases x with
      | obj fx =>
        rw [merge_obj_obj, merge_obj_obj,
          mergeInto_idem fs hnd (fun kv hmm => (hmem_idem kv hmm).1) fx]
      | null => rw [merge_eq_left_not_obj Json.null rfl]; exact hself
      | bool b => rw [merge_eq_left_not_obj (Json.bool b) rfl]; exact hself
      | num m => rw [merge_eq_left_not_obj (Json.num m) rfl]; exact hself
      | str s => rw [merge_eq_left_not_obj (Json.str s) rfl]; exact hself
      | arr xs => rw [merge_eq_left_not_obj (Json.arr xs) rfl]; exact hself
    | null => exact merge_idem_of_not_obj rfl
    | bool b => exact merge_idem_of_not_obj rfl
    | num m => exact merge_idem_of_not_obj rfl
    | str s => exact merge_idem_of_not_obj rfl
    | arr xs => exact merge_idem_of_not_obj rfl

/-- Claim C7: for every capability document and every well-formed
mapping-valued document d, calling update with d twice yields the same
capability document as calling it once. -/
theorem update_idempotent (c d : Json) (hobj : d.isObj = true) (hwf : jwf d = true) :
    update (update c d) d = update c d :=
  (merge_idem_n (sizeOf d) d le_rfl hwf).1 c

/-- Witness for claim C7 on a concrete document pair. -/
theorem update_idempotent_witness :
    (Json.obj [("timeouts", Json.obj [("implicit", Json.num 0)])]).isObj = true ∧
    jwf (Json.obj [("timeouts", Json.obj [("implicit", Json.num 0)])]) = true ∧
    update (update (Json.obj [("browserName", Json.str "firefox")])
        (Json.obj [("timeouts", Json.obj [("implicit", Json.num 0)])]))
        (Json.obj [("timeouts", Json.obj [("implicit", Json.num 0)])]) =
      update (Json.obj [("browserName", Json.str "firefox")])
        (Json.obj [("timeouts", Json.obj [("implicit", Json.num 0)])]) := by
  refine ⟨rfl, ?_, ?_⟩
  · simp [jwf, jwfFields, nodupKeysB]
  · exact update_idempotent _ _ rfl (by simp [jwf, jwfFields, nodupKeysB])

/-! ### Capabilities::add and add_subkey (desiredcapabilities.rs lines 141-161) -/

/-- Failure modes of the capability-mutating operations: a value that cannot
be serialized (WebDriverError::JsonError surfaced through the question mark),
or a Rust panic (abort). -/
inductive CapError where
  | serializationError : CapError
  | panic : CapError
  deriving DecidableEq

/-- Model of serde_json's mutable string indexing v[key] = x (index_or_insert
followed by the slot assignment): an object inserts the binding, null first
turns itself into an empty object, and every other value panics. -/
def indexSet (v : Json) (key : String) (x : Json) : Except CapError Json :=
  match v with
  | Json.obj fs => Except.ok (Json.obj (objInsert fs key x))
  | Json.null => Except.ok (Json.obj [(key, x)])
  | _ => Except.error CapError.panic

/-- Model of serde_json's immutable string indexing v[key]: the stored value
when v is an object holding the key, null otherwise. -/
def indexGet (v : Json) (key : String) : Json :=
  match v with
  | Json.obj fs => (objLookup fs key).getD Json.null
  | _ => Json.null

/-- Model of Capabilities::add: self.get_mut()[key] = to_value(value)?.  The
outcome of to_value is passed in, Except.error when the value cannot be
serialized. -/
def add (caps : Json) (key : String) (value : Except Unit Json) : Except CapError Json :=
  match value with
  | Except.error _ => Except.error CapError.serializationError
  | Except.ok jv => indexSet caps key jv

/-- Model of Capabilities::add_subkey.  When v[key] is null (key absent or
null-valued), the first branch stores json!({subkey: value}); the json! macro
unwraps its internal to_value, so a serialization failure there panics.  The
second branch evaluates to_value(value)? first (assignment evaluates its right
operand before the place expression, surfacing a serialization failure), then
performs v[key][subkey] = value, panicking when the stored value is neither an
object nor null. -/
def add_subkey (caps : Json) (key subkey : String) (value : Except Unit Json) :
    Except CapError Json :=
  if (indexGet caps key).isNull = true then
    match value with
    | Except.ok jv => indexSet caps key (Json.obj [(subkey, jv)])
    | Except.error _ => Except.error CapError.panic
  else
    match value with
    | Except.error _ => Except.error CapError.serializationError
    | Except.ok jv =>
      match indexSet (indexGet caps key) subkey jv with
      | Except.ok w2 => indexSet caps key w2
      | Except.error e => Except.error e

/-- Claim C8, counterexample: in the absent-or-null branch, a value that
fails to serialize panics (the json! macro unwraps its internal to_value)
instead of surfacing a SerializationError to the caller as the claim states
for both branches. -/
theorem add_subkey_counterexample :
    add_subkey (Json.obj []) "k" "s" (Except.error ()) = Except.error CapError.panic ∧
    CapError.panic ≠ CapError.serializationError :=
  ⟨rfl, by decide⟩

/-- Claim C8 (amended): if the value stored under key is absent or null,
add_subkey creates key as the one-entry nested document with the serialized
value under subkey, and a serialization failure in this branch panics;
otherwise it evaluates the serialization first — a failure surfaces
SerializationError to the caller, exactly the failure mode of add — and then
sets document[key][subkey] to the serialized value when the stored value is a
nested document. -/
theorem add_subkey_spec (fs : List (String × Json)) (key subkey : String)
    (jv : Json) (e : Unit) :
    (((objLookup fs key).getD Json.null).isNull = true →
      add_subkey (Json.obj fs) key subkey (Except.ok jv) =
          Except.ok (Json.obj (objInsert fs key (Json.obj [(subkey, jv)]))) ∧
        add_subkey (Json.obj fs) key subkey (Except.error e) =
          Except.error CapError.panic) ∧
    (((objLookup fs key).getD Json.null).isNull = false →
      add_subkey (Json.obj fs) key subkey (Except.error e) =
          Except.error CapError.serializationError ∧
        ∀ ws, objLookup fs key = some (Json.obj ws) →
          add_subkey (Json.obj fs) key subkey (Except.ok jv) =
            Except.ok (Json.obj (objInsert fs key (Json.obj (objInsert ws subkey jv))))) := by
  constructor
  · intro h
    constructor <;> simp [add_subkey, indexGet, indexSet, h]
  · intro h
    constructor
    · simp [add_subkey, indexGet, h]
    · intro ws hws
      simp [add_subkey, indexGet, indexSet, h, hws, Json.isNull]

/-- Witness for the amended claim C8: creation in the null branch, and the
add-style serialization failure in the non-null branch. -/
theorem add_subkey_spec_witness :
    add_subkey (Json.obj []) "k" "s" (Except.ok (Json.num 1)) =
      Except.ok (Json.obj [("k", Json.obj [("s", Json.num 1)])]) ∧
    add_subkey (Json.obj [("k", Json.obj [])]) "k" "s" (Except.error ()) =
      Except.error CapError.serializationError := by
  constructor
  · exact ((add_subkey_spec [] "k" "s" (Json.num 1) ()).1 (by decide)).1
  · exact ((add_subkey_spec [("k", Json.obj [])] "k" "s" (Json.num 1) ()).2 (by decide)).1

/-- Claim C10: when the value already stored under key is non-null and not a
nested mapping, add_subkey with a serializable value panics (the mutable
string index of a non-mapping value aborts) rather than returning an error or
replacing the value. -/
theorem add_subkey_panic_on_non_mapping (fs : List (String × Json)) (key subkey : String)
    (w : Json) (jv : Json) (hw : objLookup fs key = some w) (hnn : w.isNull = false)
    (hno : w.isObj = false) :
    add_subkey (Json.obj fs) key subkey (Except.ok jv) = Except.error CapError.panic := by
  have hig : indexGet (Json.obj fs) key = w := by simp [indexGet, hw]
  cases w <;> simp_all [add_subkey, indexSet, Json.isNull, Json.isObj]

/-- Witness for claim C10: a string stored under the key makes add_subkey
panic. -/
theorem add_subkey_panic_witness :
    objLookup [("k", Json.str "x")] "k" = some (Json.str "x") ∧
    (Json.str "x").isNull = false ∧
    (Json.str "x").isObj = false ∧
    add_subkey (Json.obj [("k", Json.str "x")]) "k" "s" (Except.ok (Json.num 1)) =
      Except.error CapError.panic := by
  refine ⟨rfl, rfl, rfl, ?_⟩
  exact add_subkey_panic_on_non_mapping [("k", Json.str "x")] "k" "s" (Json.str "x")
    (Json.num 1) rfl rfl rfl

/-! ### Proxy and ScrollBehaviour serialization (desiredcapabilities.rs lines 253-301) -/

/-- Model of the Proxy enum. -/
inductive Proxy where
  | Direct : Proxy
  | Manual (ftp_proxy http_proxy ssl_proxy socks_proxy socks_username socks_password
      no_proxy : Option String) : Proxy
  | AutoConfig (url : String) : Proxy
  | AutoDetect : Proxy
  | System : Proxy

/-- serde serialization of an optional string field: None becomes null; the
source declares no skip_serializing_if attribute, so nothing is omitted. -/
def serOptString : Option String → Json
  | none => Json.null
  | some s => Json.str s

/-- serde serialization of Proxy: internally tagged with proxyType holding
the lowercased variant name (AutoConfig renamed pac), Manual fields renamed
to camelCase, and the AutoConfig url field renamed proxyAutoconfigUrl. -/
def Proxy.toJson : Proxy → Json
  | Proxy.Direct => Json.obj [("proxyType", Json.str "direct")]
  | Proxy.Manual f h s so su sp np =>
    Json.obj [("proxyType", Json.str "manual"),
      ("ftpProxy", serOptString f), ("httpProxy", serOptString h),
      ("sslProxy", serOptString s), ("socksProxy", serOptString so),
      ("socksUsername", serOptString su), ("socksPassword", serOptString sp),
      ("noProxy", serOptString np)]
  | Proxy.AutoConfig url =>
    Json.obj [("proxyType", Json.str "pac"), ("proxyAutoconfigUrl", Json.str url)]
  | Proxy.AutoDetect => Json.obj [("proxyType", Json.str "autodetect")]
  | Proxy.System => Json.obj [("proxyType", Json.str "system")]

/-- Claim C4, counterexample: a Manual proxy with only http_proxy set still
carries the ftpProxy key (with value null) — unset sub-fields are serialized
as null, not omitted, because the derive has no skip_serializing_if. -/
theorem proxy_manual_counterexample :
    (Proxy.toJson (Proxy.Manual none (some "http://proxy:8080") none none none none
        none)).getField "ftpProxy" = some Json.null ∧
    some Json.null ≠ (none : Option Json) :=
  ⟨rfl, by simp⟩

/-- Claim C4 (amended): a Manual proxy with only http_proxy set serializes to
an object with proxyType "manual" and all seven camelCase sub-field keys
present: httpProxy carries the string value and the six unset sub-fields
carry null instead of being omitted. -/
theorem proxy_manual_serialization (h : String) :
    (Proxy.toJson (Proxy.Manual none (some h) none none none none none)).getField
        "proxyType" = some (Json.str "manual") ∧
    (Proxy.toJson (Proxy.Manual none (some h) none none none none none)).getField
        "httpProxy" = some (Json.str h) ∧
    (Proxy.toJson (Proxy.Manual none (some h) none none none none none)).getField
        "ftpProxy" = some Json.null ∧
    (Proxy.toJson (Proxy.Manual none (some h) none none none none none)).getField
        "sslProxy" = some Json.null ∧
    (Proxy.toJson (Proxy.Manual none (some h) none none none none none)).getField
        "socksProxy" = some Json.null ∧
    (Proxy.toJson (Proxy.Manual none (some h) none none none none none)).getField
        "socksUsername" = some Json.null ∧
    (Proxy.toJson (Proxy.Manual none (some h) none none none none none)).getField
        "socksPassword" = some Json.null ∧
    (Proxy.toJson (Proxy.Manual none (some h) none none none none none)).getField
        "noProxy" = some Json.null :=
  ⟨rfl, rfl, rfl, rfl, rfl, rfl, rfl, rfl⟩

/-- Model of the ScrollBehaviour enum (source discriminants Top = 0,
Bottom = 1 under repr(u8)). -/
inductive ScrollBehaviour where
  | Top : ScrollBehaviour
  | Bottom : ScrollBehaviour

/-- serde serialization of ScrollBehaviour: the plain derive ignores repr and
the explicit discriminants and serializes a unit variant as its name string
(no rename_all attribute is present on this enum). -/
def ScrollBehaviour.toJson : ScrollBehaviour → Json
  | ScrollBehaviour.Top => Json.str "Top"
  | ScrollBehaviour.Bottom => Json.str "Bottom"

/-- Claim C5 (code bug): the source annotates ScrollBehaviour with repr(u8)
and the discriminants Top = 0, Bottom = 1 — the intent the spec describes —
but derives plain serde Serialize, which ignores both and emits the variant
name strings "Top" and "Bottom" rather than the integers 0 and 1. -/
theorem scrollbehaviour_serializes_to_strings :
    ScrollBehaviour.toJson ScrollBehaviour.Top = Json.str "Top" ∧
    ScrollBehaviour.toJson ScrollBehaviour.Bottom = Json.str "Bottom" ∧
    ScrollBehaviour.toJson ScrollBehaviour.Top ≠ Json.num 0 ∧
    ScrollBehaviour.toJson ScrollBehaviour.Bottom ≠ Json.num 1 :=
  ⟨rfl, rfl, by simp [ScrollBehaviour.toJson], by simp [ScrollBehaviour.toJson]⟩

/-! ### Response classification in SurfDriverAsync::execute
(surf_async.rs lines 44-67) -/

/-- The HTTP response as execute observes it: a status code and the outcome
of decoding the body as JSON (Except.error when body_json fails). -/
structure HttpResponse where
  status : Nat
  bodyDecode : Except Unit Json

/-- http_types is_success: 200..=299. -/
def statusIsSuccess (s : Nat) : Bool := 200 ≤ s && s ≤ 299

/-- http_types is_redirection: 300..=399. -/
def statusIsRedirection (s : Nat) : Bool := 300 ≤ s && s ≤ 399

/-- http_types is_client_error: 400..=499. -/
def statusIsClientError (s : Nat) : Bool := 400 ≤ s && s ≤ 499

/-- http_types is_server_error: 500..=599. -/
def statusIsServerError (s : Nat) : Bool := 500 ≤ s && s ≤ 599

/-- Modelled from the spec: the transport error domain (error.rs is not among
the given sources).  remoteProtocolError carries the numeric status code and
the decoded-or-null error body (WebDriverError::parse); transport covers
network failures and a malformed success body surfaced through the question
mark; unreachablePanic models the unreachable arm for other status classes. -/
inductive TransportOutcomeError where
  | remoteProtocolError (status : Nat) (body : Json) : TransportOutcomeError
  | transport : TransportOutcomeError
  | unreachablePanic : TransportOutcomeError

/-- Model of the response classification of SurfDriverAsync::execute: success
or redirection returns the decoded body (decode failure propagates as a
transport error); client or server error builds WebDriverError::parse(status,
body-or-null); anything else is unreachable. -/
def executeClassify (resp : HttpResponse) : Except TransportOutcomeError Json :=
  if statusIsSuccess resp.status || statusIsRedirection resp.status then
    match resp.bodyDecode with
    | Except.ok j => Except.ok j
    | Except.error _ => Except.error TransportOutcomeError.transport
  else if statusIsClientError resp.status || statusIsServerError resp.status then
    Except.error (TransportOutcomeError.remoteProtocolError resp.status
      (match resp.bodyDecode with
       | Except.ok j => j
       | Except.error _ => Json.null))
  else
    Except.error TransportOutcomeError.unreachablePanic

/-- Claim C3: a success or redirection status returns the decoded body, a
body-decode failure there being a transport-level error; a client or server
error status yields a RemoteProtocolError carrying the numeric status and the
decoded body, with a decode failure yielding a null body instead of a
propagated decode error. -/
theorem executeClassify_spec (status : Nat) (body : Except Unit Json) :
    ((statusIsSuccess status || statusIsRedirection status) = true →
      (∀ j, body = Except.ok j →
        executeClassify ⟨status, body⟩ = Except.ok j) ∧
      (∀ e, body = Except.error e →
        executeClassify ⟨status, body⟩ =
          Except.error TransportOutcomeError.transport)) ∧
    ((statusIsClientError status || statusIsServerError status) = true →
      (∀ j, body = Except.ok j →
        executeClassify ⟨status, body⟩ =
          Except.error (TransportOutcomeError.remoteProtocolError status j)) ∧
      (∀ e, body = Except.error e →
        executeClassify ⟨status, body⟩ =
          Except.error (TransportOutcomeError.remoteProtocolError status Json.null))) := by
  constructor
  · intro hs
    constructor <;> intro x hx <;> subst hx <;> simp [executeClassify, hs]
  · intro hs
    have hns : (statusIsSuccess status || statusIsRedirection status) = false := by
      simp [statusIsClientError, statusIsServerError] at hs
      simp [statusIsSuccess, statusIsRedirection]
      omega
    constructor <;> intro x hx <;> subst hx <;> simp [executeClassify, hs, hns]

/-- Witness for claim C3 at the spec's three scenarios: 200 with a valid
body, 404 with a decoded error body, 500 with an unparsable body. -/
theorem executeClassify_spec_witness :
    executeClassify ⟨200, Except.ok (Json.obj [("value", Json.null)])⟩ =
      Except.ok (Json.obj [("value", Json.null)]) ∧
    executeClassify ⟨404, Except.ok (Json.str "no such element")⟩ =
      Except.error (TransportOutcomeError.remoteProtocolError 404
        (Json.str "no such element")) ∧
    executeClassify ⟨500, Except.error ()⟩ =
      Except.error (TransportOutcomeError.remoteProtocolError 500 Json.null) := by
  refine ⟨?_, ?_, ?_⟩
  · exact ((executeClassify_spec 200 _).1 (by decide)).1 _ rfl
  · exact ((executeClassify_spec 404 _).2 (by decide)).1 _ rfl
  · exact ((executeClassify_spec 500 _).2 (by decide)).2 _ rfl

end TF
